import Mathlib

/-!
Verification development for the advanced-vector repository
(src/advanced-vector/vector.h): a growable contiguous sequence container
built on raw memory (`RawMemory<T>`), with a logical-length layer
(`Vector<T>`) on top.

The embedding models a raw buffer as a total function `Nat → Option β`
from slot indices to slot contents (`none` = no constructed object in the
slot, i.e. raw storage), together with an explicit capacity, mirroring
the C++ pair (pointer, capacity_).  Element types are modelled by an
arbitrary type `β` together with a residual map `mv : β → β` giving the
value left behind in a moved-from object (e.g. the empty string for
`std::string`; `id` for trivially copyable types).  Throwing element
constructors are modelled by `Option β` results (`none` = the
constructor throws), and operations that can propagate such exceptions
return `Except (Vector β) (Vector β)`, where the `error` payload is the
observable container state after the exception has propagated.
-/

namespace AdvancedVector

/-- Pointwise update of a buffer: write `x` into slot `i`. -/
def upd {β : Type} (f : Nat → Option β) (i : Nat) (x : Option β) : Nat → Option β :=
  fun j => if j = i then x else f j

/-- Models `std::uninitialized_copy_n` / `std::uninitialized_move_n` from
`n` slots of `src` starting at `s` into slots of a disjoint buffer `dst`
starting at `d`: each destination slot receives the corresponding source
slot's value.  (The two differ only in residuals left in `src` and in
exception behaviour; in every call site of the source the old buffer is
destroyed and discarded immediately afterwards, so the residuals are
unobservable.  The fallible variant is `uninitCopyN` below.) -/
def transferValsN {β : Type} (src : Nat → Option β) (s : Nat) (dst : Nat → Option β)
    (d : Nat) : Nat → (Nat → Option β)
  | 0 => dst
  | Nat.succ c => transferValsN src (s + 1) (upd dst d (src s)) (d + 1) c

/-- Models `std::uninitialized_copy_n` when the element copy constructor
can throw: copying the element at source index `s` fails when `fail s`
is true, in which case the partially constructed destination range is
destroyed and the exception propagates (`none`). -/
def uninitCopyN {β : Type} (fail : Nat → Bool) (src : Nat → Option β) (s : Nat)
    (dst : Nat → Option β) (d : Nat) : Nat → Option (Nat → Option β)
  | 0 => some dst
  | Nat.succ c =>
    if fail s then none
    else uninitCopyN fail src (s + 1) (upd dst d (src s)) (d + 1) c

/-- Models `std::destroy_n(buf + i, n)`: ends the lifetime of the objects
in slots `[i, i + n)`, leaving raw storage. -/
def destroyN {β : Type} (buf : Nat → Option β) (i : Nat) : Nat → (Nat → Option β)
  | 0 => buf
  | Nat.succ c => destroyN (upd buf i none) (i + 1) c

/-- Models `std::uninitialized_value_construct_n(buf + i, n)`: value-constructs
`T()` (modelled by `defaultVal`) into slots `[i, i + n)`. -/
def valueConstructN {β : Type} (defaultVal : β) (buf : Nat → Option β) (i : Nat) :
    Nat → (Nat → Option β)
  | 0 => buf
  | Nat.succ c => valueConstructN defaultVal (upd buf i (some defaultVal)) (i + 1) c

/-- Models `std::move_backward(buf + first, buf + first + n, buf + first + n + 1)`:
performs `*(--d_last) = std::move(*(--last))` for sources
`first + n - 1, …, first` (back to front), moving slots `[first, first + n)`
one slot to the right.  A move assignment writes the source's value into
the destination and leaves the residual `Option.map mv` in the source. -/
def moveBackwardN {β : Type} (mv : β → β) (buf : Nat → Option β) (first : Nat) :
    Nat → (Nat → Option β)
  | 0 => buf
  | Nat.succ c =>
    moveBackwardN mv
      (upd (upd buf (first + c + 1) (buf (first + c))) (first + c) ((buf (first + c)).map mv))
      first c

/-- Models `std::move(buf + d + 1, buf + d + 1 + n, buf + d)`: performs
`*d_first++ = std::move(*first++)` front to back, moving slots
`[d + 1, d + 1 + n)` one slot to the left. -/
def moveForwardN {β : Type} (mv : β → β) (buf : Nat → Option β) (d : Nat) :
    Nat → (Nat → Option β)
  | 0 => buf
  | Nat.succ c =>
    moveForwardN mv (upd (upd buf d (buf (d + 1))) (d + 1) ((buf (d + 1)).map mv)) (d + 1) c

/-- Model of `RawMemory<T>` as seen by `Vector<T>`: the contents of the
owned storage block (slot `i` holds `none` while no object lives there)
plus `capacity_`. -/
structure RawMemory (β : Type) where
  buffer : Nat → Option β
  capacity : Nat

/-- Model of `RawMemory<T>` at the level of its two member fields, for the
move special members (vector.h lines 23–30): `buffer_` is an abstract
block address (`none` = `nullptr`), `capacity_` a slot count.  `Vector`
itself never calls these members (it uses `Swap`), so the slot contents
are irrelevant here. -/
structure RawMemoryAddr where
  buffer : Option Nat
  capacity : Nat
deriving DecidableEq

/-- Source move constructor, vector.h lines 23–26:
`buffer_(std::move(other.GetAddress())), capacity_(std::move(other.Capacity()))`.
`GetAddress()` and `Capacity()` return the members by value, so
`std::move` moves from prvalue copies: the destination receives copies of
`other`'s pointer and capacity, and `other` is left unchanged.  Returns
(constructed object, state of `other` afterwards). -/
def RawMemoryAddr.moveCtor (other : RawMemoryAddr) : RawMemoryAddr × RawMemoryAddr :=
  (⟨other.buffer, other.capacity⟩, other)

/-- Source move assignment, vector.h lines 27–30: assigns
`buffer_ = std::move(rhs.GetAddress()); capacity_ = std::move(rhs.Capacity())`;
again prvalue copies, so `rhs` is left unchanged.  Returns
(state of `*this` afterwards, state of `rhs` afterwards). -/
def RawMemoryAddr.moveAssign (_self rhs : RawMemoryAddr) : RawMemoryAddr × RawMemoryAddr :=
  (⟨rhs.buffer, rhs.capacity⟩, rhs)

/-- Model of `Vector<T>` (vector.h lines 87–394): the owned `RawMemory`
and the logical length `size_`. -/
structure Vector (β : Type) where
  data : RawMemory β
  size : Nat

namespace Vector

variable {β : Type}

/-- `Vector::Capacity()` — `data_.Capacity()`. -/
def Capacity (v : Vector β) : Nat := v.data.capacity

/-- `Vector::Size()`. -/
def Size (v : Vector β) : Nat := v.size

/-- Default constructor `Vector()`: default `RawMemory` (`nullptr`, capacity 0)
and `size_ = 0`. -/
def empty : Vector β := ⟨⟨fun _ => none, 0⟩, 0⟩

/-- Sized constructor `Vector(size_t size)` (vector.h lines 213–218):
allocates capacity `size` and value-constructs `size` elements. -/
def sized (defaultVal : β) (n : Nat) : Vector β :=
  ⟨⟨valueConstructN defaultVal (fun _ => none) 0 n, n⟩, n⟩

/-- Copy constructor (vector.h lines 220–225): allocates capacity
`other.size_` and `uninitialized_copy_n`s the `other.Size()` elements. -/
def copyCtor (other : Vector β) : Vector β :=
  ⟨⟨transferValsN other.data.buffer 0 (fun _ => none) 0 other.size, other.size⟩, other.size⟩

/-- `Vector::Swap` (vector.h lines 333–336): `data_.Swap(other.data_)` and
`std::swap(size_, other.size_)`.  Returns (this, other) afterwards. -/
def Swap (a b : Vector β) : Vector β × Vector β := (⟨b.data, b.size⟩, ⟨a.data, a.size⟩)

/-- Move constructor (vector.h lines 227–230): default-initializes the
members, then `Swap(other)`.  Returns (constructed vector, state of
`other` afterwards). -/
def moveCtor (other : Vector β) : Vector β × Vector β := Swap empty other

/-- `Vector::EmplaceBack` (vector.h lines 256–287).
`nothrowMove` is the compile-time trait
`is_nothrow_move_constructible_v<T> || !is_copy_constructible_v<T>`;
`ctor` is the result of constructing the new element from the forwarded
arguments (`none` = the constructor throws); `copyFail` says which
element copy constructions throw in the copy-fallback transfer.
On an exception the `error` payload is the observable state of the
vector after unwinding. -/
def EmplaceBack (nothrowMove : Bool) (v : Vector β) (ctor : Option β)
    (copyFail : Nat → Bool) : Except (Vector β) (Vector β) :=
  if v.size = v.Capacity then
    let newCapacity := if v.size = 0 then 1 else v.Capacity * 2
    match ctor with
    | none => .error v
    | some x =>
      if nothrowMove then
        .ok ⟨⟨transferValsN v.data.buffer 0 (upd (fun _ => none) v.size (some x)) 0 v.size,
              newCapacity⟩, v.size + 1⟩
      else
        match uninitCopyN copyFail v.data.buffer 0 (upd (fun _ => none) v.size (some x)) 0
            v.size with
        | none => .error v
        | some nb => .ok ⟨⟨nb, newCapacity⟩, v.size + 1⟩
  else
    match ctor with
    | none => .error v
    | some x => .ok ⟨⟨upd v.data.buffer v.size (some x), v.data.capacity⟩, v.size + 1⟩

/-- `Vector::PushBack` (both overloads, vector.h lines 243–249): delegates
to `EmplaceBack`; `ctor` is the copy (resp. move) construction of the
argument. -/
def PushBack (nothrowMove : Bool) (v : Vector β) (ctor : Option β)
    (copyFail : Nat → Bool) : Except (Vector β) (Vector β) :=
  EmplaceBack nothrowMove v ctor copyFail

/-- `Vector::PopBack` (vector.h lines 251–254): destroys the last element
and decrements `size_`. -/
def PopBack (v : Vector β) : Vector β :=
  ⟨⟨destroyN v.data.buffer (v.size - 1) 1, v.data.capacity⟩, v.size - 1⟩

/-- `Vector::Emplace` (vector.h lines 124–189).  `pos` is the insertion
index (`std::distance(cbegin(), pos)`); `ctorF` constructs the new
element from the forwarded arguments, reading the buffer contents at the
moment the construction actually runs (the arguments may be references
into the vector itself, so the construction's result depends on the
buffer state at that point); `mv` is the moved-from residual of the
element type.  Returns the new state and the index of the returned
iterator, or on an exception the observable state after unwinding.

Order of operations in the capacity-available, non-empty branch (lines
175–181), exactly as in the source: first
`new (end()) T(std::forward<T>(data_[size_ - 1]))` — a placement *move*
construction from the current last element (`std::forward<T>` on an
lvalue of non-reference type `T` yields an rvalue) — then the temporary
`T copy(std::forward<Args>(args)...)`, then
`std::move_backward(begin() + num_pos, end() - 1, end())`, then the
move assignment `*(data_ + num_pos) = std::move(copy)`. -/
def Emplace (nothrowMove : Bool) (mv : β → β) (v : Vector β) (pos : Nat)
    (ctorF : (Nat → Option β) → Option β) (copyFail : Nat → Bool) :
    Except (Vector β) (Vector β × Nat) :=
  if pos = v.size then
    match EmplaceBack nothrowMove v (ctorF v.data.buffer) copyFail with
    | .error e => .error e
    | .ok v' => .ok (v', v'.size - 1)
  else
    if v.size = v.Capacity then
      let newCapacity := if v.size = 0 then 1 else v.Capacity * 2
      match ctorF v.data.buffer with
      | none => .error v
      | some x =>
        let nb0 := upd (fun _ => none) pos (some x)
        if nothrowMove then
          let nb1 := transferValsN v.data.buffer 0 nb0 0 pos
          let nb2 := transferValsN v.data.buffer pos nb1 (pos + 1) (v.size - pos)
          .ok (⟨⟨nb2, newCapacity⟩, v.size + 1⟩, pos)
        else
          match uninitCopyN copyFail v.data.buffer 0 nb0 0 pos with
          | none => .error v
          | some nb1 =>
            match uninitCopyN copyFail v.data.buffer pos nb1 (pos + 1) (v.size - pos) with
            | none => .error v
            | some nb2 => .ok (⟨⟨nb2, newCapacity⟩, v.size + 1⟩, pos)
    else
      if v.size ≠ 0 then
        let last := v.data.buffer (v.size - 1)
        let b1 := upd (upd v.data.buffer v.size last) (v.size - 1) (last.map mv)
        match ctorF b1 with
        | none => .error ⟨⟨b1, v.data.capacity⟩, v.size⟩
        | some x =>
          let b2 := moveBackwardN mv b1 pos (v.size - 1 - pos)
          .ok (⟨⟨upd b2 pos (some x), v.data.capacity⟩, v.size + 1⟩, pos)
      else
        match ctorF v.data.buffer with
        | none => .error v
        | some x => .ok (⟨⟨upd v.data.buffer pos (some x), v.data.capacity⟩, v.size + 1⟩, pos)

/-- `Vector::Insert` (both overloads, vector.h lines 191–199): delegates
to `Emplace` with the value as the single argument. -/
def Insert (nothrowMove : Bool) (mv : β → β) (v : Vector β) (pos : Nat)
    (ctorF : (Nat → Option β) → Option β) (copyFail : Nat → Bool) :
    Except (Vector β) (Vector β × Nat) :=
  Emplace nothrowMove mv v pos ctorF copyFail

/-- `Vector::Erase` (vector.h lines 201–209): shifts `[pos + 1, size_)`
one slot left with `std::move`, destroys the last slot, decrements
`size_`, and returns `data_ + num_pos`. -/
def Erase (mv : β → β) (v : Vector β) (pos : Nat) : Vector β × Nat :=
  let b1 := moveForwardN mv v.data.buffer pos (v.size - (pos + 1))
  (⟨⟨upd b1 (v.size - 1) none, v.data.capacity⟩, v.size - 1⟩, pos)

/-- `Vector::Reserve` (vector.h lines 338–354): no-op when
`new_capacity <= Capacity()`; otherwise allocates a buffer of exactly
`new_capacity` slots and transfers the `size_` elements into it (both
the nothrow-move branch and the copy branch place the same slot values
into the fresh buffer; no claim concerns a throwing transfer here, so
the transfer is modelled as infallible). -/
def Reserve (v : Vector β) (newCapacity : Nat) : Vector β :=
  if newCapacity ≤ v.Capacity then v
  else ⟨⟨transferValsN v.data.buffer 0 (fun _ => none) 0 v.size, newCapacity⟩, v.size⟩

/-- `Vector::Resize` (vector.h lines 232–241): if `new_size < size_`,
destroy the trailing elements; if `new_size > size_`, `Reserve(new_size)`
then value-construct the new trailing slots; finally `size_ = new_size`. -/
def Resize (defaultVal : β) (v : Vector β) (newSize : Nat) : Vector β :=
  if newSize < v.size then
    ⟨⟨destroyN v.data.buffer newSize (v.size - newSize), v.data.capacity⟩, newSize⟩
  else if v.size < newSize then
    let v' := Reserve v newSize
    ⟨⟨valueConstructN defaultVal v'.data.buffer v'.size (newSize - v'.size),
      v'.data.capacity⟩, newSize⟩
  else
    ⟨v.data, newSize⟩

/-- Copy assignment (vector.h lines 291–318), for `this != &rhs`:
if `rhs.Size() > data_.Capacity()`, copy-and-swap; otherwise copy-assign
over the overlapping prefix and either destroy the surplus or
copy-construct the extra suffix; finally `size_ = rhs.Size()`. -/
def copyAssign (self rhs : Vector β) : Vector β :=
  if rhs.size > self.Capacity then
    ⟨(copyCtor rhs).data, rhs.size⟩
  else if self.size > rhs.size then
    ⟨⟨destroyN (transferValsN rhs.data.buffer 0 self.data.buffer 0 rhs.size) rhs.size
        (self.size - rhs.size), self.data.capacity⟩, rhs.size⟩
  else
    ⟨⟨transferValsN rhs.data.buffer self.size
        (transferValsN rhs.data.buffer 0 self.data.buffer 0 self.size) self.size
        (rhs.size - self.size), self.data.capacity⟩, rhs.size⟩

/-- Move assignment (vector.h lines 320–331), for `this != &rhs`:
if `rhs.Size() > data_.Capacity()`, full `Swap(rhs)`; otherwise only
`data_.Swap(rhs.data_)` followed by `size_ = rhs.Size()` — note that
`rhs.size_` itself is left unchanged by this branch.  Returns
(state of `*this` afterwards, state of `rhs` afterwards). -/
def moveAssign (self rhs : Vector β) : Vector β × Vector β :=
  if rhs.size > self.Capacity then
    Swap self rhs
  else
    (⟨rhs.data, rhs.size⟩, ⟨self.data, rhs.size⟩)

/-- Invariant half: `size_ ≤ capacity`. -/
def SizeLeCap (v : Vector β) : Prop := v.size ≤ v.Capacity

/-- Invariant half: every slot in `[0, size_)` holds a constructed element. -/
def LiveBelowSize (v : Vector β) : Prop := ∀ i, i < v.size → (v.data.buffer i).isSome

end Vector

/-- Reachable states of a `Vector`: every state producible by a finite
sequence of the public operations of vector.h (the external surface of
the container), starting from constructed vectors, with each operation
used within its documented contract (assertion preconditions hold, and
binary operations act on two distinct vector objects).  For operations
that can exit by exception, both the success state and the
post-exception state are reachable; for operations involving two
vectors, the final states of both are reachable.  `defaultVal` models
`T()` and `mv` the moved-from residual of the element type. -/
inductive Reachable (defaultVal : β) (mv : β → β) : Vector β → Prop where
  | emptyCtor : Reachable defaultVal mv Vector.empty
  | sizedCtor (n : Nat) : Reachable defaultVal mv (Vector.sized defaultVal n)
  | copyCtorOp {v : Vector β} : Reachable defaultVal mv v →
      Reachable defaultVal mv (Vector.copyCtor v)
  | moveCtorDst {v : Vector β} : Reachable defaultVal mv v →
      Reachable defaultVal mv (Vector.moveCtor v).1
  | moveCtorSrc {v : Vector β} : Reachable defaultVal mv v →
      Reachable defaultVal mv (Vector.moveCtor v).2
  | copyAssignOp {a b : Vector β} : Reachable defaultVal mv a → Reachable defaultVal mv b →
      Reachable defaultVal mv (Vector.copyAssign a b)
  | moveAssignDst {a b : Vector β} : Reachable defaultVal mv a → Reachable defaultVal mv b →
      Reachable defaultVal mv (Vector.moveAssign a b).1
  | moveAssignSrc {a b : Vector β} : Reachable defaultVal mv a → Reachable defaultVal mv b →
      Reachable defaultVal mv (Vector.moveAssign a b).2
  | swapFst {a b : Vector β} : Reachable defaultVal mv a → Reachable defaultVal mv b →
      Reachable defaultVal mv (Vector.Swap a b).1
  | swapSnd {a b : Vector β} : Reachable defaultVal mv a → Reachable defaultVal mv b →
      Reachable defaultVal mv (Vector.Swap a b).2
  | emplaceBackOk {v v' : Vector β} {nm : Bool} {ctor : Option β} {cf : Nat → Bool} :
      Reachable defaultVal mv v → Vector.EmplaceBack nm v ctor cf = .ok v' →
      Reachable defaultVal mv v'
  | emplaceBackErr {v e : Vector β} {nm : Bool} {ctor : Option β} {cf : Nat → Bool} :
      Reachable defaultVal mv v → Vector.EmplaceBack nm v ctor cf = .error e →
      Reachable defaultVal mv e
  | emplaceOk {v v' : Vector β} {nm : Bool} {pos i : Nat}
      {f : (Nat → Option β) → Option β} {cf : Nat → Bool} :
      pos ≤ v.size → Reachable defaultVal mv v →
      Vector.Emplace nm mv v pos f cf = .ok (v', i) → Reachable defaultVal mv v'
  | emplaceErr {v e : Vector β} {nm : Bool} {pos : Nat}
      {f : (Nat → Option β) → Option β} {cf : Nat → Bool} :
      pos ≤ v.size → Reachable defaultVal mv v →
      Vector.Emplace nm mv v pos f cf = .error e → Reachable defaultVal mv e
  | eraseOp {v : Vector β} {pos : Nat} : pos < v.size → Reachable defaultVal mv v →
      Reachable defaultVal mv (Vector.Erase mv v pos).1
  | popBackOp {v : Vector β} : 0 < v.size → Reachable defaultVal mv v →
      Reachable defaultVal mv (Vector.PopBack v)
  | resizeOp {v : Vector β} (n : Nat) : Reachable defaultVal mv v →
      Reachable defaultVal mv (Vector.Resize defaultVal v n)
  | reserveOp {v : Vector β} (n : Nat) : Reachable defaultVal mv v →
      Reachable defaultVal mv (Vector.Reserve v n)

section BufferLemmas

variable {β : Type}

/-- Pointwise description of `transferValsN`. -/
theorem transferValsN_apply (src : Nat → Option β) :
    ∀ (n s : Nat) (dst : Nat → Option β) (d j : Nat),
      transferValsN src s dst d n j =
        if d ≤ j ∧ j < d + n then src (s + (j - d)) else dst j := by
  intro n
  induction n with
  | zero =>
    intro s dst d j
    rw [if_neg (by omega)]
    rfl
  | succ c ih =>
    intro s dst d j
    show transferValsN src (s + 1) (upd dst d (src s)) (d + 1) c j = _
    rw [ih]
    simp only [upd]
    split_ifs <;>
      first
        | rfl
        | (exfalso; omega)
        | (congr 1 <;> first | omega | (congr 1 <;> omega))

/-- A successful `uninitCopyN` produces exactly the `transferValsN` buffer. -/
theorem uninitCopyN_ok (fail : Nat → Bool) (src : Nat → Option β) :
    ∀ (n s : Nat) (dst : Nat → Option β) (d : Nat) (nb : Nat → Option β),
      uninitCopyN fail src s dst d n = some nb → nb = transferValsN src s dst d n := by
  intro n
  induction n with
  | zero =>
    intro s dst d nb h
    simpa [uninitCopyN, transferValsN] using h.symm
  | succ c ih =>
    intro s dst d nb h
    by_cases hf : fail s
    · simp [uninitCopyN, hf] at h
    · simp only [uninitCopyN, hf, Bool.false_eq_true, if_false] at h
      exact ih (s + 1) (upd dst d (src s)) (d + 1) nb h

/-- When no element copy fails, `uninitCopyN` succeeds. -/
theorem uninitCopyN_false (src : Nat → Option β) :
    ∀ (n s : Nat) (dst : Nat → Option β) (d : Nat),
      uninitCopyN (fun _ => false) src s dst d n = some (transferValsN src s dst d n) := by
  intro n
  induction n with
  | zero => intro s dst d; rfl
  | succ c ih =>
    intro s dst d
    show uninitCopyN _ src (s + 1) (upd dst d (src s)) (d + 1) c = _
    exact ih (s + 1) (upd dst d (src s)) (d + 1)

/-- Pointwise description of `destroyN`. -/
theorem destroyN_apply :
    ∀ (n : Nat) (buf : Nat → Option β) (i j : Nat),
      destroyN buf i n j = if i ≤ j ∧ j < i + n then none else buf j := by
  intro n
  induction n with
  | zero =>
    intro buf i j
    rw [if_neg (by omega)]
    rfl
  | succ c ih =>
    intro buf i j
    show destroyN (upd buf i none) (i + 1) c j = _
    rw [ih]
    simp only [upd]
    split_ifs <;>
      first
        | rfl
        | (exfalso; omega)
        | (congr 1 <;> first | omega | (congr 1 <;> omega))

/-- Pointwise description of `valueConstructN`. -/
theorem valueConstructN_apply (defaultVal : β) :
    ∀ (n : Nat) (buf : Nat → Option β) (i j : Nat),
      valueConstructN defaultVal buf i n j =
        if i ≤ j ∧ j < i + n then some defaultVal else buf j := by
  intro n
  induction n with
  | zero =>
    intro buf i j
    rw [if_neg (by omega)]
    rfl
  | succ c ih =>
    intro buf i j
    show valueConstructN defaultVal (upd buf i (some defaultVal)) (i + 1) c j = _
    rw [ih]
    simp only [upd]
    split_ifs <;>
      first
        | rfl
        | (exfalso; omega)
        | (congr 1 <;> first | omega | (congr 1 <;> omega))

/-- Pointwise description of `moveBackwardN`: slots `(first, first + n]`
receive the value one slot to their left, slot `first` is left moved-from
(when any move happened), everything else is untouched. -/
theorem moveBackwardN_apply (mv : β → β) :
    ∀ (n : Nat) (buf : Nat → Option β) (first j : Nat),
      moveBackwardN mv buf first n j =
        if first < j ∧ j ≤ first + n then buf (j - 1)
        else if j = first ∧ 0 < n then (buf first).map mv
        else buf j := by
  intro n
  induction n with
  | zero =>
    intro buf first j
    rw [if_neg (by omega), if_neg (by omega)]
    rfl
  | succ c ih =>
    intro buf first j
    show moveBackwardN mv
        (upd (upd buf (first + c + 1) (buf (first + c))) (first + c) ((buf (first + c)).map mv))
        first c j = _
    rw [ih]
    simp only [upd]
    split_ifs <;>
      first
        | rfl
        | (exfalso; omega)
        | (congr 1 <;> first | omega | (congr 1 <;> omega))

/-- Pointwise description of `moveForwardN`: slots `[d, d + n)` receive
the value one slot to their right, slot `d + n` is left moved-from (when
any move happened), everything else is untouched. -/
theorem moveForwardN_apply (mv : β → β) :
    ∀ (n : Nat) (buf : Nat → Option β) (d j : Nat),
      moveForwardN mv buf d n j =
        if d ≤ j ∧ j < d + n then buf (j + 1)
        else if j = d + n ∧ 0 < n then (buf (d + n)).map mv
        else buf j := by
  intro n
  induction n with
  | zero =>
    intro buf d j
    rw [if_neg (by omega), if_neg (by omega)]
    rfl
  | succ c ih =>
    intro buf d j
    show moveForwardN mv (upd (upd buf d (buf (d + 1))) (d + 1) ((buf (d + 1)).map mv))
        (d + 1) c j = _
    rw [ih]
    simp only [upd]
    split_ifs <;>
      first
        | rfl
        | (exfalso; omega)
        | (congr 1 <;> first | omega | (congr 1 <;> omega))

end BufferLemmas

section Characterizations

variable {β : Type}

/-- `EmplaceBack` with a throwing element constructor: the exception
carries the unchanged vector (in both paths). -/
theorem emplaceBack_none (nm : Bool) (v : Vector β) (cf : Nat → Bool) :
    Vector.EmplaceBack nm v none cf = .error v := by
  unfold Vector.EmplaceBack
  split <;> rfl

/-- `EmplaceBack`, growth path, nothrow-move transfer. -/
theorem emplaceBack_growth_nothrow (v : Vector β) (x : β) (cf : Nat → Bool)
    (hg : v.size = v.Capacity) :
    Vector.EmplaceBack true v (some x) cf =
      .ok ⟨⟨transferValsN v.data.buffer 0 (upd (fun _ => none) v.size (some x)) 0 v.size,
        if v.size = 0 then 1 else v.Capacity * 2⟩, v.size + 1⟩ := by
  unfold Vector.EmplaceBack
  rw [if_pos hg]
  rfl

/-- `EmplaceBack`, growth path, copy-fallback transfer, all copies
succeeding. -/
theorem emplaceBack_growth_copy_ok (v : Vector β) (x : β) (cf : Nat → Bool)
    {nb : Nat → Option β} (hg : v.size = v.Capacity)
    (huc : uninitCopyN cf v.data.buffer 0 (upd (fun _ => none) v.size (some x)) 0 v.size =
      some nb) :
    Vector.EmplaceBack false v (some x) cf =
      .ok ⟨⟨nb, if v.size = 0 then 1 else v.Capacity * 2⟩, v.size + 1⟩ := by
  unfold Vector.EmplaceBack
  rw [if_pos hg]
  show (match uninitCopyN cf v.data.buffer 0
      (upd (fun _ => none) v.size (some x)) 0 v.size with
    | none => Except.error v
    | some nb => Except.ok (⟨⟨nb, if v.size = 0 then 1 else v.Capacity * 2⟩, v.size + 1⟩ :
        Vector β)) = _
  rw [huc]

/-- `EmplaceBack`, growth path, copy-fallback transfer, a copy throwing:
the partially filled new buffer is discarded and the old state carried
out unchanged. -/
theorem emplaceBack_growth_copy_err (v : Vector β) (x : β) (cf : Nat → Bool)
    (hg : v.size = v.Capacity)
    (huc : uninitCopyN cf v.data.buffer 0 (upd (fun _ => none) v.size (some x)) 0 v.size =
      none) :
    Vector.EmplaceBack false v (some x) cf = .error v := by
  unfold Vector.EmplaceBack
  rw [if_pos hg]
  show (match uninitCopyN cf v.data.buffer 0
      (upd (fun _ => none) v.size (some x)) 0 v.size with
    | none => Except.error v
    | some nb => Except.ok (⟨⟨nb, if v.size = 0 then 1 else v.Capacity * 2⟩, v.size + 1⟩ :
        Vector β)) = _
  rw [huc]

/-- `EmplaceBack`, spare-capacity path. -/
theorem emplaceBack_nogrow (nm : Bool) (v : Vector β) (x : β) (cf : Nat → Bool)
    (hg : v.size ≠ v.Capacity) :
    Vector.EmplaceBack nm v (some x) cf =
      .ok ⟨⟨upd v.data.buffer v.size (some x), v.data.capacity⟩, v.size + 1⟩ := by
  unfold Vector.EmplaceBack
  rw [if_neg hg]

/-- Successful `EmplaceBack` with a non-throwing element constructor and
non-throwing copies, in closed form. -/
theorem emplaceBack_total_ok (nm : Bool) (v : Vector β) (x : β) :
    Vector.EmplaceBack nm v (some x) (fun _ => false) =
      .ok (if v.size = v.Capacity then
             ⟨⟨transferValsN v.data.buffer 0 (upd (fun _ => none) v.size (some x)) 0 v.size,
               if v.size = 0 then 1 else v.Capacity * 2⟩, v.size + 1⟩
           else ⟨⟨upd v.data.buffer v.size (some x), v.data.capacity⟩, v.size + 1⟩) := by
  by_cases hg : v.size = v.Capacity
  · rw [if_pos hg]
    cases nm
    · exact emplaceBack_growth_copy_ok v x _ hg (uninitCopyN_false _ _ _ _ _)
    · exact emplaceBack_growth_nothrow v x _ hg
  · rw [if_neg hg]
    exact emplaceBack_nogrow nm v x _ hg

/-- Capacity of the vector after a successful `EmplaceBack`. -/
theorem emplaceBack_ok_capacity {nm : Bool} {v : Vector β} {ctor : Option β}
    {cf : Nat → Bool} {v' : Vector β} (h : Vector.EmplaceBack nm v ctor cf = .ok v') :
    v'.Capacity =
      if v.size = v.Capacity then (if v.size = 0 then 1 else v.Capacity * 2)
      else v.Capacity := by
  cases ctor with
  | none =>
    rw [emplaceBack_none] at h
    exact Except.noConfusion h
  | some x =>
    by_cases hg : v.size = v.Capacity
    · rw [if_pos hg]
      cases nm
      · cases huc : uninitCopyN cf v.data.buffer 0 (upd (fun _ => none) v.size (some x)) 0
            v.size with
        | none =>
          rw [emplaceBack_growth_copy_err v x cf hg huc] at h
          exact Except.noConfusion h
        | some nb =>
          rw [emplaceBack_growth_copy_ok v x cf hg huc] at h
          cases h
          rfl
      · rw [emplaceBack_growth_nothrow v x cf hg] at h
        cases h
        rfl
    · rw [if_neg hg]
      rw [emplaceBack_nogrow nm v x cf hg] at h
      cases h
      rfl

/-- Size of the vector after a successful `EmplaceBack`. -/
theorem emplaceBack_ok_size {nm : Bool} {v : Vector β} {ctor : Option β}
    {cf : Nat → Bool} {v' : Vector β} (h : Vector.EmplaceBack nm v ctor cf = .ok v') :
    v'.size = v.size + 1 := by
  cases ctor with
  | none =>
    rw [emplaceBack_none] at h
    exact Except.noConfusion h
  | some x =>
    by_cases hg : v.size = v.Capacity
    · cases nm
      · cases huc : uninitCopyN cf v.data.buffer 0 (upd (fun _ => none) v.size (some x)) 0
            v.size with
        | none =>
          rw [emplaceBack_growth_copy_err v x cf hg huc] at h
          exact Except.noConfusion h
        | some nb =>
          rw [emplaceBack_growth_copy_ok v x cf hg huc] at h
          cases h
          rfl
      · rw [emplaceBack_growth_nothrow v x cf hg] at h
        cases h
        rfl
    · rw [emplaceBack_nogrow nm v x cf hg] at h
      cases h
      rfl

/-- The state carried by an `EmplaceBack` exception is exactly the input
vector. -/
theorem emplaceBack_err {nm : Bool} {v : Vector β} {ctor : Option β}
    {cf : Nat → Bool} {e : Vector β} (h : Vector.EmplaceBack nm v ctor cf = .error e) :
    e = v := by
  cases ctor with
  | none =>
    rw [emplaceBack_none] at h
    cases h
    rfl
  | some x =>
    by_cases hg : v.size = v.Capacity
    · cases nm
      · cases huc : uninitCopyN cf v.data.buffer 0 (upd (fun _ => none) v.size (some x)) 0
            v.size with
        | none =>
          rw [emplaceBack_growth_copy_err v x cf hg huc] at h
          cases h
          rfl
        | some nb =>
          rw [emplaceBack_growth_copy_ok v x cf hg huc] at h
          exact Except.noConfusion h
      · rw [emplaceBack_growth_nothrow v x cf hg] at h
        exact Except.noConfusion h
    · rw [emplaceBack_nogrow nm v x cf hg] at h
      exact Except.noConfusion h

/-- `Emplace` at the end position delegating to a successful
`EmplaceBack`. -/
theorem emplace_at_end_ok {nm : Bool} {mv : β → β} {v : Vector β} {pos : Nat}
    {f : (Nat → Option β) → Option β} {cf : Nat → Bool} {w : Vector β}
    (h : pos = v.size) (hEB : Vector.EmplaceBack nm v (f v.data.buffer) cf = .ok w) :
    Vector.Emplace nm mv v pos f cf = .ok (w, w.size - 1) := by
  unfold Vector.Emplace
  rw [if_pos h, hEB]

/-- `Emplace` at the end position delegating to a failing `EmplaceBack`. -/
theorem emplace_at_end_err {nm : Bool} {mv : β → β} {v : Vector β} {pos : Nat}
    {f : (Nat → Option β) → Option β} {cf : Nat → Bool} {e : Vector β}
    (h : pos = v.size) (hEB : Vector.EmplaceBack nm v (f v.data.buffer) cf = .error e) :
    Vector.Emplace nm mv v pos f cf = .error e := by
  unfold Vector.Emplace
  rw [if_pos h, hEB]

/-- `Emplace`, growth path, new-element construction throwing: the
exception carries the unchanged vector. -/
theorem emplace_growth_err_ctor {nm : Bool} {mv : β → β} {v : Vector β} {pos : Nat}
    {f : (Nat → Option β) → Option β} {cf : Nat → Bool}
    (hp : pos ≠ v.size) (hg : v.size = v.Capacity) (hf : f v.data.buffer = none) :
    Vector.Emplace nm mv v pos f cf = .error v := by
  unfold Vector.Emplace
  rw [if_neg hp, if_pos hg, hf]

/-- `Emplace`, growth path, nothrow-move transfer. -/
theorem emplace_growth_nothrow {mv : β → β} {v : Vector β} {pos : Nat}
    {f : (Nat → Option β) → Option β} {cf : Nat → Bool} {x : β}
    (hp : pos ≠ v.size) (hg : v.size = v.Capacity) (hf : f v.data.buffer = some x) :
    Vector.Emplace true mv v pos f cf =
      .ok (⟨⟨transferValsN v.data.buffer pos
              (transferValsN v.data.buffer 0 (upd (fun _ => none) pos (some x)) 0 pos)
              (pos + 1) (v.size - pos),
            if v.size = 0 then 1 else v.Capacity * 2⟩, v.size + 1⟩, pos) := by
  unfold Vector.Emplace
  rw [if_neg hp, if_pos hg, hf]
  rfl

/-- `Emplace`, growth path, copy-fallback transfer with all copies
succeeding. -/
theorem emplace_growth_copy_ok {mv : β → β} {v : Vector β} {pos : Nat}
    {f : (Nat → Option β) → Option β} {cf : Nat → Bool} {x : β}
    {nb1 nb2 : Nat → Option β}
    (hp : pos ≠ v.size) (hg : v.size = v.Capacity) (hf : f v.data.buffer = some x)
    (huc1 : uninitCopyN cf v.data.buffer 0 (upd (fun _ => none) pos (some x)) 0 pos =
      some nb1)
    (huc2 : uninitCopyN cf v.data.buffer pos nb1 (pos + 1) (v.size - pos) = some nb2) :
    Vector.Emplace false mv v pos f cf =
      .ok (⟨⟨nb2, if v.size = 0 then 1 else v.Capacity * 2⟩, v.size + 1⟩, pos) := by
  unfold Vector.Emplace
  rw [if_neg hp, if_pos hg, hf]
  show (match uninitCopyN cf v.data.buffer 0 (upd (fun _ => none) pos (some x)) 0 pos with
    | none => Except.error v
    | some nb1 =>
      match uninitCopyN cf v.data.buffer pos nb1 (pos + 1) (v.size - pos) with
      | none => Except.error v
      | some nb2 =>
        Except.ok ((⟨⟨nb2, if v.size = 0 then 1 else v.Capacity * 2⟩, v.size + 1⟩ :
          Vector β), pos)) = _
  rw [huc1]
  show (match uninitCopyN cf v.data.buffer pos nb1 (pos + 1) (v.size - pos) with
    | none => Except.error v
    | some nb2 =>
      Except.ok ((⟨⟨nb2, if v.size = 0 then 1 else v.Capacity * 2⟩, v.size + 1⟩ :
        Vector β), pos)) = _
  rw [huc2]

/-- `Emplace`, growth path, copy-fallback transfer with the prefix copy
throwing. -/
theorem emplace_growth_copy_err1 {mv : β → β} {v : Vector β} {pos : Nat}
    {f : (Nat → Option β) → Option β} {cf : Nat → Bool} {x : β}
    (hp : pos ≠ v.size) (hg : v.size = v.Capacity) (hf : f v.data.buffer = some x)
    (huc1 : uninitCopyN cf v.data.buffer 0 (upd (fun _ => none) pos (some x)) 0 pos = none) :
    Vector.Emplace false mv v pos f cf = .error v := by
  unfold Vector.Emplace
  rw [if_neg hp, if_pos hg, hf]
  show (match uninitCopyN cf v.data.buffer 0 (upd (fun _ => none) pos (some x)) 0 pos with
    | none => Except.error v
    | some nb1 =>
      match uninitCopyN cf v.data.buffer pos nb1 (pos + 1) (v.size - pos) with
      | none => Except.error v
      | some nb2 =>
        Except.ok ((⟨⟨nb2, if v.size = 0 then 1 else v.Capacity * 2⟩, v.size + 1⟩ :
          Vector β), pos)) = _
  rw [huc1]

/-- `Emplace`, growth path, copy-fallback transfer with the suffix copy
throwing. -/
theorem emplace_growth_copy_err2 {mv : β → β} {v : Vector β} {pos : Nat}
    {f : (Nat → Option β) → Option β} {cf : Nat → Bool} {x : β} {nb1 : Nat → Option β}
    (hp : pos ≠ v.size) (hg : v.size = v.Capacity) (hf : f v.data.buffer = some x)
    (huc1 : uninitCopyN cf v.data.buffer 0 (upd (fun _ => none) pos (some x)) 0 pos =
      some nb1)
    (huc2 : uninitCopyN cf v.data.buffer pos nb1 (pos + 1) (v.size - pos) = none) :
    Vector.Emplace false mv v pos f cf = .error v := by
  unfold Vector.Emplace
  rw [if_neg hp, if_pos hg, hf]
  show (match uninitCopyN cf v.data.buffer 0 (upd (fun _ => none) pos (some x)) 0 pos with
    | none => Except.error v
    | some nb1 =>
      match uninitCopyN cf v.data.buffer pos nb1 (pos + 1) (v.size - pos) with
      | none => Except.error v
      | some nb2 =>
        Except.ok ((⟨⟨nb2, if v.size = 0 then 1 else v.Capacity * 2⟩, v.size + 1⟩ :
          Vector β), pos)) = _
  rw [huc1]
  show (match uninitCopyN cf v.data.buffer pos nb1 (pos + 1) (v.size - pos) with
    | none => Except.error v
    | some nb2 =>
      Except.ok ((⟨⟨nb2, if v.size = 0 then 1 else v.Capacity * 2⟩, v.size + 1⟩ :
        Vector β), pos)) = _
  rw [huc2]

/-- The buffer as mutated by the spare-capacity branch's first step
(`new (end()) T(std::forward<T>(data_[size_ - 1]))`): the last element
move-constructed into slot `size_`, its slot left moved-from. -/
def spareStep1 (mv : β → β) (v : Vector β) : Nat → Option β :=
  upd (upd v.data.buffer v.size (v.data.buffer (v.size - 1))) (v.size - 1)
    ((v.data.buffer (v.size - 1)).map mv)

/-- `Emplace`, spare-capacity branch, temporary construction succeeding.
Note the temporary is constructed from the buffer *after* the last
element was moved into the trailing slot (`spareStep1`). -/
theorem emplace_spare_ok {nm : Bool} {mv : β → β} {v : Vector β} {pos : Nat}
    {f : (Nat → Option β) → Option β} {cf : Nat → Bool} {x : β}
    (hp : pos ≠ v.size) (hg : v.size ≠ v.Capacity) (hn : v.size ≠ 0)
    (hf : f (spareStep1 mv v) = some x) :
    Vector.Emplace nm mv v pos f cf =
      .ok (⟨⟨upd (moveBackwardN mv (spareStep1 mv v) pos (v.size - 1 - pos)) pos (some x),
            v.data.capacity⟩, v.size + 1⟩, pos) := by
  unfold Vector.Emplace
  rw [if_neg hp, if_neg hg, if_pos hn]
  show (match f (spareStep1 mv v) with
    | none => Except.error (⟨⟨spareStep1 mv v, v.data.capacity⟩, v.size⟩ : Vector β)
    | some x =>
      Except.ok ((⟨⟨upd (moveBackwardN mv (spareStep1 mv v) pos (v.size - 1 - pos)) pos
          (some x), v.data.capacity⟩, v.size + 1⟩ : Vector β), pos)) = _
  rw [hf]

/-- `Emplace`, spare-capacity branch, temporary construction throwing:
the exception escapes *after* the mutation of `spareStep1`, with `size_`
unchanged (the trailing constructed element is leaked and the last live
slot is left moved-from). -/
theorem emplace_spare_err {nm : Bool} {mv : β → β} {v : Vector β} {pos : Nat}
    {f : (Nat → Option β) → Option β} {cf : Nat → Bool}
    (hp : pos ≠ v.size) (hg : v.size ≠ v.Capacity) (hn : v.size ≠ 0)
    (hf : f (spareStep1 mv v) = none) :
    Vector.Emplace nm mv v pos f cf =
      .error ⟨⟨spareStep1 mv v, v.data.capacity⟩, v.size⟩ := by
  unfold Vector.Emplace
  rw [if_neg hp, if_neg hg, if_pos hn]
  show (match f (spareStep1 mv v) with
    | none => Except.error (⟨⟨spareStep1 mv v, v.data.capacity⟩, v.size⟩ : Vector β)
    | some x =>
      Except.ok ((⟨⟨upd (moveBackwardN mv (spareStep1 mv v) pos (v.size - 1 - pos)) pos
          (some x), v.data.capacity⟩, v.size + 1⟩ : Vector β), pos)) = _
  rw [hf]

/-- Capacity after a successful `Emplace` within its contract
(`pos ≤ v.size`). -/
theorem emplace_ok_capacity {nm : Bool} {mv : β → β} {v : Vector β} {pos : Nat}
    {f : (Nat → Option β) → Option β} {cf : Nat → Bool} {v' : Vector β} {i : Nat}
    (hp : pos ≤ v.size) (h : Vector.Emplace nm mv v pos f cf = .ok (v', i)) :
    v'.Capacity =
      if v.size = v.Capacity then (if v.size = 0 then 1 else v.Capacity * 2)
      else v.Capacity := by
  by_cases hend : pos = v.size
  · cases hEB : Vector.EmplaceBack nm v (f v.data.buffer) cf with
    | error e =>
      rw [emplace_at_end_err hend hEB] at h
      exact Except.noConfusion h
    | ok w =>
      rw [emplace_at_end_ok hend hEB] at h
      cases h
      exact emplaceBack_ok_capacity hEB
  · by_cases hg : v.size = v.Capacity
    · rw [if_pos hg]
      cases hf : f v.data.buffer with
      | none =>
        rw [emplace_growth_err_ctor hend hg hf] at h
        exact Except.noConfusion h
      | some x =>
        cases nm
        · cases huc1 : uninitCopyN cf v.data.buffer 0 (upd (fun _ => none) pos (some x)) 0
              pos with
          | none =>
            rw [emplace_growth_copy_err1 hend hg hf huc1] at h
            exact Except.noConfusion h
          | some nb1 =>
            cases huc2 : uninitCopyN cf v.data.buffer pos nb1 (pos + 1) (v.size - pos) with
            | none =>
              rw [emplace_growth_copy_err2 hend hg hf huc1 huc2] at h
              exact Except.noConfusion h
            | some nb2 =>
              rw [emplace_growth_copy_ok hend hg hf huc1 huc2] at h
              cases h
              rfl
        · rw [emplace_growth_nothrow hend hg hf] at h
          cases h
          rfl
    · rw [if_neg hg]
      have hn : v.size ≠ 0 := by omega
      cases hf : f (spareStep1 mv v) with
      | none =>
        rw [emplace_spare_err hend hg hn hf] at h
        exact Except.noConfusion h
      | some x =>
        rw [emplace_spare_ok hend hg hn hf] at h
        cases h
        rfl

/-- Capacity and size of the state carried by an `Emplace` exception,
within the contract (`pos ≤ v.size`): both are unchanged. -/
theorem emplace_err_state {nm : Bool} {mv : β → β} {v : Vector β} {pos : Nat}
    {f : (Nat → Option β) → Option β} {cf : Nat → Bool} {e : Vector β}
    (hp : pos ≤ v.size) (h : Vector.Emplace nm mv v pos f cf = .error e) :
    e.Capacity = v.Capacity ∧ e.size = v.size := by
  by_cases hend : pos = v.size
  · cases hEB : Vector.EmplaceBack nm v (f v.data.buffer) cf with
    | error e0 =>
      rw [emplace_at_end_err hend hEB] at h
      cases h
      rw [emplaceBack_err hEB]
      exact ⟨rfl, rfl⟩
    | ok w =>
      rw [emplace_at_end_ok hend hEB] at h
      exact Except.noConfusion h
  · by_cases hg : v.size = v.Capacity
    · cases hf : f v.data.buffer with
      | none =>
        rw [emplace_growth_err_ctor hend hg hf] at h
        cases h
        exact ⟨rfl, rfl⟩
      | some x =>
        cases nm
        · cases huc1 : uninitCopyN cf v.data.buffer 0 (upd (fun _ => none) pos (some x)) 0
              pos with
          | none =>
            rw [emplace_growth_copy_err1 hend hg hf huc1] at h
            cases h
            exact ⟨rfl, rfl⟩
          | some nb1 =>
            cases huc2 : uninitCopyN cf v.data.buffer pos nb1 (pos + 1) (v.size - pos) with
            | none =>
              rw [emplace_growth_copy_err2 hend hg hf huc1 huc2] at h
              cases h
              exact ⟨rfl, rfl⟩
            | some nb2 =>
              rw [emplace_growth_copy_ok hend hg hf huc1 huc2] at h
              exact Except.noConfusion h
        · rw [emplace_growth_nothrow hend hg hf] at h
          exact Except.noConfusion h
    · have hn : v.size ≠ 0 := by omega
      cases hf : f (spareStep1 mv v) with
      | none =>
        rw [emplace_spare_err hend hg hn hf] at h
        cases h
        exact ⟨rfl, rfl⟩
      | some x =>
        rw [emplace_spare_ok hend hg hn hf] at h
        exact Except.noConfusion h

end Characterizations

section ClaimEasy

variable {β : Type}

/-- C1: for every vector and element type, if the element constructor
invoked by `EmplaceBack` throws — in the growth-triggering path (where it
runs before any transfer, into the still-private new buffer) or in the
spare-capacity path (where it targets the raw slot `size_`) — then the
exception propagates with the vector's entire observable state, in
particular `size_` and every previously-live element, exactly as before
the call: the post-exception state is the input state itself, whatever
the element traits and whatever the copy-transfer behaviour. -/
theorem emplaceBack_ctor_throw_leaves_vector_unchanged (nm : Bool) (v : Vector β)
    (cf : Nat → Bool) :
    Vector.EmplaceBack nm v none cf = .error v := by
  unfold Vector.EmplaceBack
  split <;> rfl

/-- C6 (code evaluation at the failing input): the source move
constructor and move assignment of `RawMemory` copy `buffer_` and
`capacity_` out of member-function return values, so the moved-from
source keeps its non-null block address and its nonzero capacity —
contradicting the claim that the source is left with no block and zero
capacity (and leaving two owners of one block, which the destructor then
frees twice). -/
theorem rawMemory_move_leaves_source_untouched :
    (RawMemoryAddr.moveCtor ⟨some 7, 1⟩).2 = ⟨some 7, 1⟩ ∧
    (RawMemoryAddr.moveCtor ⟨some 7, 1⟩).1 = ⟨some 7, 1⟩ ∧
    (RawMemoryAddr.moveAssign ⟨none, 0⟩ ⟨some 7, 1⟩).2 = ⟨some 7, 1⟩ ∧
    ¬ ((RawMemoryAddr.moveCtor ⟨some 7, 1⟩).2.buffer = none ∧
       (RawMemoryAddr.moveCtor ⟨some 7, 1⟩).2.capacity = 0) := by
  refine ⟨rfl, rfl, rfl, ?_⟩
  intro hcontra
  exact absurd hcontra.2 (by decide)

/-- C10: move construction default-initializes the new vector's members
and swaps with the source, so the new vector takes over the source's
buffer, capacity and size unchanged, and the source is left exactly
empty: size 0, capacity 0, and no storage (every slot of the default
`RawMemory` is unconstructed raw nothing). -/
theorem moveCtor_transfers_and_empties_source (v : Vector β) :
    (Vector.moveCtor v).1 = v ∧
    (Vector.moveCtor v).2.size = 0 ∧
    (Vector.moveCtor v).2.Capacity = 0 ∧
    ∀ i, (Vector.moveCtor v).2.data.buffer i = none :=
  ⟨rfl, rfl, rfl, fun _ => rfl⟩

/-- C5 (code evaluation at the failing input): move-assigning a one-element
vector into a destination with size 0 and capacity 2 takes the
capacity-sufficient branch, which swaps buffers but leaves the source's
`size_` untouched.  The destination is correct (size 1, element 5), but
the source afterwards reports size 1 over its swapped-in buffer whose
slot 0 holds no constructed element — so the source is not in a valid
state (slots `[0, size)` are not all constructed), contradicting the
claim's source-validity conjunct. -/
theorem moveAssign_source_invalid_eval :
    (Vector.moveAssign (Vector.Reserve Vector.empty 2)
        (⟨⟨upd (fun _ => none) 0 (some (5 : Nat)), 1⟩, 1⟩ : Vector Nat)).1.size = 1 ∧
    (Vector.moveAssign (Vector.Reserve Vector.empty 2)
        (⟨⟨upd (fun _ => none) 0 (some (5 : Nat)), 1⟩, 1⟩ : Vector Nat)).1.data.buffer 0 =
      some 5 ∧
    (Vector.moveAssign (Vector.Reserve Vector.empty 2)
        (⟨⟨upd (fun _ => none) 0 (some (5 : Nat)), 1⟩, 1⟩ : Vector Nat)).2.size = 1 ∧
    (Vector.moveAssign (Vector.Reserve Vector.empty 2)
        (⟨⟨upd (fun _ => none) 0 (some (5 : Nat)), 1⟩, 1⟩ : Vector Nat)).2.Capacity = 2 ∧
    (Vector.moveAssign (Vector.Reserve Vector.empty 2)
        (⟨⟨upd (fun _ => none) 0 (some (5 : Nat)), 1⟩, 1⟩ : Vector Nat)).2.data.buffer 0 =
      none :=
  ⟨rfl, rfl, rfl, rfl, rfl⟩

/-- C2 (code evaluation at the failing input): a state reachable by public
operations within their contracts — start empty, `Reserve(2)` on one
vector, append one element to another, then move-assign the second into
the first — in which the moved-from source reports `size_ = 1` while slot
0 of its buffer holds no constructed element.  Its size still respects
`size ≤ capacity`, but the constructed-slots half of the claimed
invariant fails on this reachable state. -/
theorem reachable_state_violates_live_invariant :
    Reachable (0 : Nat) id
      (Vector.moveAssign (Vector.Reserve Vector.empty 2)
        ⟨⟨upd (fun _ => none) 0 (some 0), 1⟩, 1⟩).2 ∧
    (Vector.moveAssign (Vector.Reserve Vector.empty 2)
        (⟨⟨upd (fun _ => none) 0 (some 0), 1⟩, 1⟩ : Vector Nat)).2.size = 1 ∧
    (Vector.moveAssign (Vector.Reserve Vector.empty 2)
        (⟨⟨upd (fun _ => none) 0 (some 0), 1⟩, 1⟩ : Vector Nat)).2.data.buffer 0 = none ∧
    ¬ Vector.LiveBelowSize
        (Vector.moveAssign (Vector.Reserve Vector.empty 2)
          (⟨⟨upd (fun _ => none) 0 (some 0), 1⟩, 1⟩ : Vector Nat)).2 := by
  refine ⟨?_, rfl, rfl, ?_⟩
  · have hE : Vector.EmplaceBack true Vector.empty (some (0 : Nat)) (fun _ => false) =
        .ok ⟨⟨upd (fun _ => none) 0 (some 0), 1⟩, 1⟩ := rfl
    exact Reachable.moveAssignSrc (Reachable.reserveOp 2 Reachable.emptyCtor)
      (Reachable.emplaceBackOk Reachable.emptyCtor hE)
  · intro hlive
    exact absurd (hlive 0 (by decide)) (by decide)

end ClaimEasy

section ClaimCapacity

variable {β : Type}

/-- Capacity after `Reserve`: unchanged when `n ≤ capacity`, exactly `n`
otherwise. -/
theorem reserve_capacity (v : Vector β) (n : Nat) :
    (Vector.Reserve v n).Capacity = max v.Capacity n := by
  unfold Vector.Reserve
  split
  case isTrue h =>
    show v.Capacity = max v.Capacity n
    omega
  case isFalse h =>
    show n = max v.Capacity n
    omega

/-- Capacity after `Resize`. -/
theorem resize_capacity (dv : β) (v : Vector β) (n : Nat) :
    (Vector.Resize dv v n).Capacity =
      if v.size < n then max v.Capacity n else v.Capacity := by
  unfold Vector.Resize
  split
  case isTrue h =>
    rw [if_neg (by omega)]
    rfl
  case isFalse h =>
    split
    case isTrue h2 =>
      show (Vector.Reserve v n).Capacity = max v.Capacity n
      exact reserve_capacity v n
    case isFalse h2 =>
      rfl

/-- C3: whenever an append (`EmplaceBack`/`PushBack`) or an insert
(`Emplace`/`Insert`, used within its contract `pos ≤ size`) finds `size`
equal to `capacity`, the capacity adopted on success is exactly
`max(1, 2 × old capacity)` (per `new_capacity = size == 0 ? 1 : 2 * capacity`);
and no public operation of the container other than full reassignment
ever decreases capacity: append and insert never decrease it (also on an
exception the carried state has the old capacity), and `Resize`,
`Reserve`, `Erase` and `PopBack` never decrease it. -/
theorem growth_policy_and_capacity_monotone (nm : Bool) (mv : β → β) (dv : β)
    (v : Vector β) (ctor : Option β) (f : (Nat → Option β) → Option β) (cf : Nat → Bool)
    (pos n : Nat) :
    (∀ v', Vector.EmplaceBack nm v ctor cf = .ok v' →
      (v.size = v.Capacity → v'.Capacity = max 1 (2 * v.Capacity)) ∧
      v.Capacity ≤ v'.Capacity) ∧
    (∀ e, Vector.EmplaceBack nm v ctor cf = .error e → e.Capacity = v.Capacity) ∧
    (∀ v', Vector.PushBack nm v ctor cf = .ok v' →
      (v.size = v.Capacity → v'.Capacity = max 1 (2 * v.Capacity)) ∧
      v.Capacity ≤ v'.Capacity) ∧
    (∀ v' i, pos ≤ v.size → Vector.Emplace nm mv v pos f cf = .ok (v', i) →
      (v.size = v.Capacity → v'.Capacity = max 1 (2 * v.Capacity)) ∧
      v.Capacity ≤ v'.Capacity) ∧
    (∀ v' i, pos ≤ v.size → Vector.Insert nm mv v pos f cf = .ok (v', i) →
      (v.size = v.Capacity → v'.Capacity = max 1 (2 * v.Capacity)) ∧
      v.Capacity ≤ v'.Capacity) ∧
    (∀ e, pos ≤ v.size → Vector.Emplace nm mv v pos f cf = .error e →
      e.Capacity = v.Capacity) ∧
    v.Capacity ≤ (Vector.Resize dv v n).Capacity ∧
    v.Capacity ≤ (Vector.Reserve v n).Capacity ∧
    (Vector.Erase mv v pos).1.Capacity = v.Capacity ∧
    (Vector.PopBack v).Capacity = v.Capacity := by
  have hEB : ∀ v', Vector.EmplaceBack nm v ctor cf = .ok v' →
      (v.size = v.Capacity → v'.Capacity = max 1 (2 * v.Capacity)) ∧
      v.Capacity ≤ v'.Capacity := by
    intro v' h
    have hc := emplaceBack_ok_capacity h
    constructor
    · intro hg
      rw [hc, if_pos hg]
      split_ifs <;> omega
    · rw [hc]
      split_ifs <;> omega
  have hEmp : ∀ v' i, pos ≤ v.size → Vector.Emplace nm mv v pos f cf = .ok (v', i) →
      (v.size = v.Capacity → v'.Capacity = max 1 (2 * v.Capacity)) ∧
      v.Capacity ≤ v'.Capacity := by
    intro v' i hp h
    have hc := emplace_ok_capacity hp h
    constructor
    · intro hg
      rw [hc, if_pos hg]
      split_ifs <;> omega
    · rw [hc]
      split_ifs <;> omega
  refine ⟨hEB, ?_, hEB, hEmp, hEmp, ?_, ?_, ?_, rfl, rfl⟩
  · intro e h
    rw [emplaceBack_err h]
  · intro e hp h
    exact (emplace_err_state hp h).1
  · rw [resize_capacity]
    split_ifs <;> omega
  · rw [reserve_capacity]
    omega

/-- C3 witness: on a full one-element vector (size 1, capacity 1), both a
growth-triggering append and a growth-triggering insert at position 0
adopt capacity `max(1, 2 × 1) = 2`. -/
theorem growth_policy_witness :
    (⟨⟨upd (upd (fun _ => none) 1 (some 4)) 0 (some 3), 2⟩, 2⟩ : Vector Nat).Capacity =
      max 1 (2 * (⟨⟨upd (fun _ => none) 0 (some (3 : Nat)), 1⟩, 1⟩ : Vector Nat).Capacity) ∧
    (⟨⟨upd (upd (fun _ => none) 0 (some 4)) 1 (some 3), 2⟩, 2⟩ : Vector Nat).Capacity =
      max 1 (2 * (⟨⟨upd (fun _ => none) 0 (some (3 : Nat)), 1⟩, 1⟩ : Vector Nat).Capacity) := by
  constructor
  · exact ((growth_policy_and_capacity_monotone true id 0
      (⟨⟨upd (fun _ => none) 0 (some (3 : Nat)), 1⟩, 1⟩ : Vector Nat) (some 4)
      (fun _ => some 4) (fun _ => false) 0 0).1
      ⟨⟨upd (upd (fun _ => none) 1 (some 4)) 0 (some 3), 2⟩, 2⟩ rfl).1 rfl
  · exact ((growth_policy_and_capacity_monotone true id 0
      (⟨⟨upd (fun _ => none) 0 (some (3 : Nat)), 1⟩, 1⟩ : Vector Nat) (some 4)
      (fun _ => some 4) (fun _ => false) 0 0).2.2.2.1
      ⟨⟨upd (upd (fun _ => none) 0 (some 4)) 1 (some 3), 2⟩, 2⟩ 0 (by omega) rfl).1 rfl

/-- C9: `Reserve(n)` with `n ≤ capacity` is a no-op (the state is
unchanged); with `n > capacity` it produces capacity exactly `n`,
unchanged size, and the same sequence of element values. -/
theorem reserve_spec (v : Vector β) (n : Nat) :
    (n ≤ v.Capacity → Vector.Reserve v n = v) ∧
    (v.Capacity < n →
      (Vector.Reserve v n).Capacity = n ∧
      (Vector.Reserve v n).size = v.size ∧
      ∀ j, j < v.size → (Vector.Reserve v n).data.buffer j = v.data.buffer j) := by
  constructor
  · intro h
    unfold Vector.Reserve
    rw [if_pos h]
  · intro h
    have hne : ¬ n ≤ v.Capacity := by omega
    refine ⟨?_, ?_, ?_⟩
    · rw [reserve_capacity]
      omega
    · unfold Vector.Reserve
      rw [if_neg hne]
    · intro j hj
      unfold Vector.Reserve
      rw [if_neg hne]
      show transferValsN v.data.buffer 0 (fun _ => none) 0 v.size j = _
      rw [transferValsN_apply, if_pos ⟨Nat.zero_le j, by omega⟩]
      congr 1
      omega

/-- C9 witness: on a one-element vector of capacity 1, `Reserve 1` is a
no-op and `Reserve 3` yields capacity 3, size 1 and the same element. -/
theorem reserve_spec_witness :
    Vector.Reserve (Vector.sized (0 : Nat) 1) 1 = Vector.sized (0 : Nat) 1 ∧
    (Vector.Reserve (Vector.sized (0 : Nat) 1) 3).Capacity = 3 ∧
    (Vector.Reserve (Vector.sized (0 : Nat) 1) 3).size = 1 ∧
    (Vector.Reserve (Vector.sized (0 : Nat) 1) 3).data.buffer 0 =
      (Vector.sized (0 : Nat) 1).data.buffer 0 := by
  refine ⟨(reserve_spec _ 1).1 (by decide), ((reserve_spec _ 3).2 (by decide)).1,
    ((reserve_spec _ 3).2 (by decide)).2.1,
    ((reserve_spec _ 3).2 (by decide)).2.2 0 (by decide)⟩

end ClaimCapacity

section ClaimResize

variable {β : Type}

/-- C8 counterexample: on a full vector of size 2 and capacity 2,
`Resize(3)` goes through `Reserve(3)`, which allocates capacity exactly 3
— not the growth policy's `max(1, 2 × capacity) = 4` that the claim
prescribes for the reallocation. -/
theorem resize_not_growth_policy :
    (Vector.Resize (0 : Nat)
        (⟨⟨upd (upd (fun _ => none) 0 (some 1)) 1 (some 2), 2⟩, 2⟩ : Vector Nat) 3).Capacity
      = 3 ∧
    (Vector.Resize (0 : Nat)
        (⟨⟨upd (upd (fun _ => none) 0 (some 1)) 1 (some 2), 2⟩, 2⟩ : Vector Nat) 3).Capacity
      ≠ max 1 (2 * (⟨⟨upd (upd (fun _ => none) 0 (some 1)) 1 (some 2), 2⟩, 2⟩ :
          Vector Nat).Capacity) :=
  ⟨rfl, by decide⟩

/-- C8 (amended): `Resize(n)` with `n < size` destroys exactly the
trailing `size − n` elements, leaving the first `n` and the capacity
unchanged; with `n > size` it ensures capacity ≥ `n` — reallocating to
capacity exactly `n` when `n > capacity` (so the final capacity is
`max(capacity, n)`) — and value-constructs the `n − size` newly exposed
trailing slots, leaving the first `size` element values unchanged; with
`n = size` it changes nothing. -/
theorem resize_spec (dv : β) (v : Vector β) (n : Nat) :
    (n < v.size →
      (Vector.Resize dv v n).size = n ∧
      (Vector.Resize dv v n).Capacity = v.Capacity ∧
      (∀ j, j < n → (Vector.Resize dv v n).data.buffer j = v.data.buffer j) ∧
      (∀ j, n ≤ j → j < v.size → (Vector.Resize dv v n).data.buffer j = none)) ∧
    (v.size < n →
      (Vector.Resize dv v n).size = n ∧
      (Vector.Resize dv v n).Capacity = max v.Capacity n ∧
      (∀ j, j < v.size → (Vector.Resize dv v n).data.buffer j = v.data.buffer j) ∧
      (∀ j, v.size ≤ j → j < n → (Vector.Resize dv v n).data.buffer j = some dv)) ∧
    (n = v.size → Vector.Resize dv v n = v) := by
  refine ⟨?_, ?_, ?_⟩
  · intro h
    have hEq : Vector.Resize dv v n =
        ⟨⟨destroyN v.data.buffer n (v.size - n), v.data.capacity⟩, n⟩ := by
      unfold Vector.Resize
      rw [if_pos h]
    rw [hEq]
    refine ⟨rfl, rfl, ?_, ?_⟩
    · intro j hj
      show destroyN v.data.buffer n (v.size - n) j = _
      rw [destroyN_apply, if_neg (by omega)]
    · intro j h1 h2
      show destroyN v.data.buffer n (v.size - n) j = _
      rw [destroyN_apply, if_pos (by omega)]
  · intro h
    have hgrow : ¬ n < v.size := by omega
    by_cases hc : n ≤ v.Capacity
    · have hEq : Vector.Resize dv v n =
          ⟨⟨valueConstructN dv v.data.buffer v.size (n - v.size), v.data.capacity⟩, n⟩ := by
        unfold Vector.Resize
        rw [if_neg hgrow, if_pos h]
        unfold Vector.Reserve
        rw [if_pos hc]
      rw [hEq]
      refine ⟨rfl, ?_, ?_, ?_⟩
      · show v.Capacity = max v.Capacity n
        omega
      · intro j hj
        show valueConstructN dv v.data.buffer v.size (n - v.size) j = _
        rw [valueConstructN_apply, if_neg (by omega)]
      · intro j h1 h2
        show valueConstructN dv v.data.buffer v.size (n - v.size) j = _
        rw [valueConstructN_apply, if_pos (by omega)]
    · have hEq : Vector.Resize dv v n =
          ⟨⟨valueConstructN dv
              (transferValsN v.data.buffer 0 (fun _ => none) 0 v.size) v.size (n - v.size),
            n⟩, n⟩ := by
        unfold Vector.Resize
        rw [if_neg hgrow, if_pos h]
        unfold Vector.Reserve
        rw [if_neg hc]
      rw [hEq]
      refine ⟨rfl, ?_, ?_, ?_⟩
      · show n = max v.Capacity n
        omega
      · intro j hj
        show valueConstructN dv (transferValsN v.data.buffer 0 (fun _ => none) 0 v.size)
            v.size (n - v.size) j = _
        rw [valueConstructN_apply, if_neg (by omega), transferValsN_apply,
          if_pos ⟨Nat.zero_le j, by omega⟩]
        congr 1
        omega
      · intro j h1 h2
        show valueConstructN dv (transferValsN v.data.buffer 0 (fun _ => none) 0 v.size)
            v.size (n - v.size) j = _
        rw [valueConstructN_apply, if_pos (by omega)]
  · intro h
    have hEq : Vector.Resize dv v n = ⟨v.data, n⟩ := by
      unfold Vector.Resize
      rw [if_neg (by omega), if_neg (by omega)]
    rw [hEq, h]

/-- C8 witness: on a one-element vector of capacity 1, `Resize 0`
destroys the element and keeps capacity, `Resize 3` reallocates to
capacity `max(1, 3) = 3`, keeps the element, value-constructs the new
slots, and `Resize 1` is a no-op. -/
theorem resize_spec_witness :
    (Vector.Resize (0 : Nat) (⟨⟨upd (fun _ => none) 0 (some 3), 1⟩, 1⟩ : Vector Nat) 0).size
        = 0 ∧
    (Vector.Resize (0 : Nat) (⟨⟨upd (fun _ => none) 0 (some 3), 1⟩, 1⟩ : Vector Nat)
        0).data.buffer 0 = none ∧
    (Vector.Resize (0 : Nat) (⟨⟨upd (fun _ => none) 0 (some 3), 1⟩, 1⟩ : Vector Nat)
        3).Capacity = max 1 3 ∧
    (Vector.Resize (0 : Nat) (⟨⟨upd (fun _ => none) 0 (some 3), 1⟩, 1⟩ : Vector Nat)
        3).data.buffer 0 =
      (⟨⟨upd (fun _ => none) 0 (some 3), 1⟩, 1⟩ : Vector Nat).data.buffer 0 ∧
    (Vector.Resize (0 : Nat) (⟨⟨upd (fun _ => none) 0 (some 3), 1⟩, 1⟩ : Vector Nat)
        3).data.buffer 2 = some 0 ∧
    Vector.Resize (0 : Nat) (⟨⟨upd (fun _ => none) 0 (some 3), 1⟩, 1⟩ : Vector Nat) 1 =
      (⟨⟨upd (fun _ => none) 0 (some 3), 1⟩, 1⟩ : Vector Nat) := by
  refine ⟨((resize_spec _ _ _).1 (by decide)).1,
    ((resize_spec _ _ _).1 (by decide)).2.2.2 0 (by decide) (by decide),
    ((resize_spec _ _ _).2.1 (by decide)).2.1,
    ((resize_spec _ _ _).2.1 (by decide)).2.2.1 0 (by decide),
    ((resize_spec _ _ _).2.1 (by decide)).2.2.2 2 (by decide) (by decide),
    (resize_spec _ _ _).2.2 (by decide)⟩

end ClaimResize

section ClaimAlias

/-- C4 (code evaluation at the failing input): in the spare-capacity
branch, the source constructs the trailing slot from the *moved* last
element *before* materializing the temporary from the arguments.  On the
vector `[10, 20]` with capacity 3 (element residual after move modelled
as 0), inserting at position 0 a reference to element 1 — the last
element — therefore copies an already-moved-from value: the result is
`[0, 10, 20]` instead of the claimed correctly shifted `[20, 10, 20]`. -/
theorem emplace_alias_last_element_eval :
    (Vector.Emplace true (fun _ => (0 : Nat))
        (⟨⟨upd (upd (fun _ => none) 0 (some 10)) 1 (some 20), 3⟩, 2⟩ : Vector Nat) 0
        (fun buf => buf 1) (fun _ => false)).map
        (fun r => (r.2, r.1.size, r.1.data.buffer 0, r.1.data.buffer 1, r.1.data.buffer 2)) =
      Except.ok (0, 3, some 0, some 10, some 20) ∧
    some (0 : Nat) ≠ some 20 :=
  ⟨rfl, by decide⟩

end ClaimAlias

section ClaimInsertErase

variable {β : Type}

/-- Pointwise description of the buffer after `Erase`: the shifted range,
the moved-from residual (when any element was shifted), the destroyed
trailing slot, and everything else untouched. -/
theorem erase_buffer (mv : β → β) (w : Vector β) (pos j : Nat) :
    (Vector.Erase mv w pos).1.data.buffer j =
      if j = w.size - 1 then none
      else if pos ≤ j ∧ j < pos + (w.size - (pos + 1)) then w.data.buffer (j + 1)
      else if j = pos + (w.size - (pos + 1)) ∧ 0 < w.size - (pos + 1) then
        (w.data.buffer (pos + (w.size - (pos + 1)))).map mv
      else w.data.buffer j := by
  show upd (moveForwardN mv w.data.buffer pos (w.size - (pos + 1))) (w.size - 1) none j = _
  simp only [upd]
  rw [moveForwardN_apply]

set_option maxHeartbeats 2000000 in
/-- C7: for every vector within its invariant bounds (`size ≤ capacity`),
every position `p ≤ size` and every value `x`, `Insert`ing `x` at `p`
and then `Erase`ing at the index returned by the insertion restores the
original sequence: the size returns to its original value and every live
slot `[0, size)` holds its original value — through the append path, the
growth path (for either element-trait branch) and the spare-capacity
shifting path alike. -/
theorem insert_then_erase_restores (nm : Bool) (mv : β → β) (v : Vector β) (p : Nat)
    (x : β) (v' : Vector β) (i : Nat) (hp : p ≤ v.size) (hc : v.size ≤ v.Capacity)
    (h : Vector.Insert nm mv v p (fun _ => some x) (fun _ => false) = .ok (v', i)) :
    (Vector.Erase mv v' i).1.size = v.size ∧
    ∀ j, j < v.size → (Vector.Erase mv v' i).1.data.buffer j = v.data.buffer j := by
  have h' : Vector.Emplace nm mv v p (fun _ => some x) (fun _ => false) = .ok (v', i) := h
  by_cases hend : p = v.size
  · rw [emplace_at_end_ok hend (emplaceBack_total_ok nm v x)] at h'
    cases h'
    by_cases hg : v.size = v.Capacity
    · rw [if_pos hg]
      refine ⟨rfl, ?_⟩
      intro j hj
      rw [erase_buffer]
      simp only [upd, transferValsN_apply]
      split_ifs <;>
        first
          | rfl
          | (exfalso; omega)
          | (congr 1 <;> first | omega | (congr 1 <;> omega))
    · rw [if_neg hg]
      refine ⟨rfl, ?_⟩
      intro j hj
      rw [erase_buffer]
      simp only [upd]
      split_ifs <;>
        first
          | rfl
          | (exfalso; omega)
          | (congr 1 <;> first | omega | (congr 1 <;> omega))
  · have hplt : p < v.size := by omega
    by_cases hg : v.size = v.Capacity
    · have key : Vector.Emplace nm mv v p (fun _ => some x) (fun _ => false) =
          .ok (⟨⟨transferValsN v.data.buffer p
                (transferValsN v.data.buffer 0 (upd (fun _ => none) p (some x)) 0 p)
                (p + 1) (v.size - p),
              if v.size = 0 then 1 else v.Capacity * 2⟩, v.size + 1⟩, p) := by
        cases nm
        · exact emplace_growth_copy_ok hend hg rfl (uninitCopyN_false _ _ _ _ _)
            (uninitCopyN_false _ _ _ _ _)
        · exact emplace_growth_nothrow hend hg rfl
      rw [key] at h'
      cases h'
      refine ⟨rfl, ?_⟩
      intro j hj
      rw [erase_buffer]
      simp only [upd, transferValsN_apply]
      split_ifs <;>
        first
          | rfl
          | (exfalso; omega)
          | (congr 1 <;> first | omega | (congr 1 <;> omega))
    · have hn : v.size ≠ 0 := by omega
      have key : Vector.Emplace nm mv v p (fun _ => some x) (fun _ => false) =
          .ok (⟨⟨upd (moveBackwardN mv (spareStep1 mv v) p (v.size - 1 - p)) p (some x),
              v.data.capacity⟩, v.size + 1⟩, p) :=
        emplace_spare_ok hend hg hn rfl
      rw [key] at h'
      cases h'
      refine ⟨rfl, ?_⟩
      intro j hj
      rw [erase_buffer]
      simp only [upd, spareStep1, moveBackwardN_apply]
      split_ifs <;>
        first
          | rfl
          | (exfalso; omega)
          | (congr 1 <;> first | omega | (congr 1 <;> omega))

/-- C7 witness: on the vector `[10, 20]` with capacity 3, inserting `7`
at position 1 yields `[10, 7, 20]` with returned index 1, and erasing at
that index restores size 2 with elements `10, 20`. -/
theorem insert_then_erase_witness :
    (Vector.Erase (fun _ => (0 : Nat))
        (⟨⟨upd (upd (upd (upd (upd (fun _ => none) 0 (some 10)) 1 (some 20)) 2 (some 20))
            1 (some 0)) 1 (some 7), 3⟩, 3⟩ : Vector Nat) 1).1.size = 2 ∧
    (Vector.Erase (fun _ => (0 : Nat))
        (⟨⟨upd (upd (upd (upd (upd (fun _ => none) 0 (some 10)) 1 (some 20)) 2 (some 20))
            1 (some 0)) 1 (some 7), 3⟩, 3⟩ : Vector Nat) 1).1.data.buffer 0 = some 10 ∧
    (Vector.Erase (fun _ => (0 : Nat))
        (⟨⟨upd (upd (upd (upd (upd (fun _ => none) 0 (some 10)) 1 (some 20)) 2 (some 20))
            1 (some 0)) 1 (some 7), 3⟩, 3⟩ : Vector Nat) 1).1.data.buffer 1 = some 20 := by
  have H := insert_then_erase_restores true (fun _ => (0 : Nat))
    (⟨⟨upd (upd (fun _ => none) 0 (some 10)) 1 (some 20), 3⟩, 2⟩ : Vector Nat) 1 7
    (⟨⟨upd (upd (upd (upd (upd (fun _ => none) 0 (some 10)) 1 (some 20)) 2 (some 20))
        1 (some 0)) 1 (some 7), 3⟩, 3⟩ : Vector Nat) 1
    (by decide) (by decide) rfl
  exact ⟨H.1, H.2 0 (by decide), H.2 1 (by decide)⟩

end ClaimInsertErase

section Invariant

variable {β : Type}

/-- Size after a successful `Emplace` within its contract. -/
theorem emplace_ok_size {nm : Bool} {mv : β → β} {v : Vector β} {pos : Nat}
    {f : (Nat → Option β) → Option β} {cf : Nat → Bool} {v' : Vector β} {i : Nat}
    (hp : pos ≤ v.size) (h : Vector.Emplace nm mv v pos f cf = .ok (v', i)) :
    v'.size = v.size + 1 := by
  by_cases hend : pos = v.size
  · cases hEB : Vector.EmplaceBack nm v (f v.data.buffer) cf with
    | error e =>
      rw [emplace_at_end_err hend hEB] at h
      exact Except.noConfusion h
    | ok w =>
      rw [emplace_at_end_ok hend hEB] at h
      cases h
      exact emplaceBack_ok_size hEB
  · by_cases hg : v.size = v.Capacity
    · cases hf : f v.data.buffer with
      | none =>
        rw [emplace_growth_err_ctor hend hg hf] at h
        exact Except.noConfusion h
      | some x =>
        cases nm
        · cases huc1 : uninitCopyN cf v.data.buffer 0 (upd (fun _ => none) pos (some x)) 0
              pos with
          | none =>
            rw [emplace_growth_copy_err1 hend hg hf huc1] at h
            exact Except.noConfusion h
          | some nb1 =>
            cases huc2 : uninitCopyN cf v.data.buffer pos nb1 (pos + 1) (v.size - pos) with
            | none =>
              rw [emplace_growth_copy_err2 hend hg hf huc1 huc2] at h
              exact Except.noConfusion h
            | some nb2 =>
              rw [emplace_growth_copy_ok hend hg hf huc1 huc2] at h
              cases h
              rfl
        · rw [emplace_growth_nothrow hend hg hf] at h
          cases h
          rfl
    · have hn : v.size ≠ 0 := by omega
      cases hf : f (spareStep1 mv v) with
      | none =>
        rw [emplace_spare_err hend hg hn hf] at h
        exact Except.noConfusion h
      | some x =>
        rw [emplace_spare_ok hend hg hn hf] at h
        cases h
        rfl

/-- Size after `Reserve` is unchanged. -/
theorem reserve_size (v : Vector β) (n : Nat) : (Vector.Reserve v n).size = v.size := by
  unfold Vector.Reserve
  split <;> rfl

/-- Size after `Resize` is the requested size. -/
theorem resize_size (dv : β) (v : Vector β) (n : Nat) :
    (Vector.Resize dv v n).size = n := by
  unfold Vector.Resize
  split_ifs <;> rfl

/-- The destination of move assignment always ends with the source's
prior buffer and prior length (both branches). -/
theorem moveAssign_dst (a b : Vector β) :
    (Vector.moveAssign a b).1 = ⟨b.data, b.size⟩ := by
  unfold Vector.moveAssign
  split <;> rfl

/-- The `size ≤ capacity` half of the container invariant does hold in
every reachable state (it is only the constructed-slots half that the
move assignment's capacity-sufficient branch breaks, see the C2 and C5
results). -/
theorem reachable_size_le_capacity {dv : β} {mv : β → β} {v : Vector β}
    (h : Reachable dv mv v) : v.size ≤ v.Capacity := by
  induction h with
  | emptyCtor => exact Nat.le_refl _
  | sizedCtor n => exact Nat.le_refl _
  | copyCtorOp hr ih => exact Nat.le_refl _
  | moveCtorDst hr ih => exact ih
  | moveCtorSrc hr ih => exact Nat.le_refl _
  | copyAssignOp ha hb iha ihb =>
    rename_i a b
    unfold Vector.copyAssign
    split_ifs with h1 h2
    · exact Nat.le_refl _
    · show b.size ≤ a.Capacity
      omega
    · show b.size ≤ a.Capacity
      omega
  | moveAssignDst ha hb iha ihb =>
    rw [moveAssign_dst]
    exact ihb
  | moveAssignSrc ha hb iha ihb =>
    rename_i a b
    unfold Vector.moveAssign
    split_ifs with h1
    · exact iha
    · show b.size ≤ a.Capacity
      omega
  | swapFst ha hb iha ihb => exact ihb
  | swapSnd ha hb iha ihb => exact iha
  | emplaceBackOk hr hE ih =>
    rw [emplaceBack_ok_size hE, emplaceBack_ok_capacity hE]
    split_ifs <;> omega
  | emplaceBackErr hr hE ih =>
    rw [emplaceBack_err hE]
    exact ih
  | emplaceOk hp hr hE ih =>
    rw [emplace_ok_size hp hE, emplace_ok_capacity hp hE]
    split_ifs <;> omega
  | emplaceErr hp hr hE ih =>
    rw [(emplace_err_state hp hE).1, (emplace_err_state hp hE).2]
    exact ih
  | eraseOp hlt hr ih =>
    rename_i w pos
    show w.size - 1 ≤ w.Capacity
    omega
  | popBackOp hpos hr ih =>
    rename_i w
    show w.size - 1 ≤ w.Capacity
    omega
  | resizeOp n hr ih =>
    rw [resize_size, resize_capacity]
    split_ifs <;> omega
  | reserveOp n hr ih =>
    rw [reserve_size, reserve_capacity]
    omega

end Invariant

end AdvancedVector
